import Mathlib

/-!
Verification of the eveapi request pipeline: the retrying transport
(`RetryWithExponentialBackoff` in common/httpclient.go), the credential-refresh
request executor (`DoRequest` in the esi client), cache-key derivation
(`buildCacheKey` for ESI, `BuildCacheKey` for zKill), the caching policy of
`fetchPageData` / `GetSingleKillmail` (modules/zkill/client.go), the
pagination/aggregation/merge algorithm (`GetKillMailDataForMonth`,
`processKillMails`, `AddEsiKillMail` in the zkill service), and the record
merge (`ConvertToFlattened` in common/model/definitions.go).

Modelling conventions, used throughout:
- Go `float64` payloads (ISK values, security status, positions) are never
  computed with by the verified code, only copied; they are embedded as `Int`
  carriers.
- `time.Time` values are likewise only copied; they are embedded as `Int`.
- Go byte slices holding JSON are embedded as the decoded values themselves
  (the JSON round-trip is the identity on the values the code stores).
- Go maps used as parameter sets are embedded as association lists
  (`List (String × String)`) with a `Nodup` hypothesis on the keys where map
  semantics matters; Go map iteration order is modelled by quantifying over
  permutations of the list.
- External collaborators (the HTTP sender, the cache, the auth refresher) are
  function parameters, mirroring the injected interfaces of the source.
-/

/-! ### Byte-lexicographic string order

Go's `sort.Strings` orders strings by their UTF-8 bytes; on valid UTF-8 this
coincides with code-point-lexicographic order, embedded here character-wise.
(The built-in `String.le` is not kernel-reducible, so we define our own.) -/

def strLeAux : List Char → List Char → Bool
  | [], _ => true
  | _ :: _, [] => false
  | a :: as, b :: bs =>
    if a.toNat < b.toNat then true
    else if b.toNat < a.toNat then false
    else strLeAux as bs

def strLe (s t : String) : Bool := strLeAux s.data t.data

theorem strLeAux_total (as bs : List Char) : strLeAux as bs = true ∨ strLeAux bs as = true := by
  induction as generalizing bs with
  | nil => exact Or.inl rfl
  | cons a as ih =>
    cases bs with
    | nil => exact Or.inr rfl
    | cons b bs =>
      by_cases hab : a.toNat < b.toNat
      · left; simp [strLeAux, hab]
      · by_cases hba : b.toNat < a.toNat
        · right; simp [strLeAux, hba]
        · rcases ih bs with h | h
          · left; simpa [strLeAux, hab, hba] using h
          · right; simpa [strLeAux, hab, hba] using h

theorem strLeAux_trans {as bs cs : List Char} (h1 : strLeAux as bs = true)
    (h2 : strLeAux bs cs = true) : strLeAux as cs = true := by
  induction as generalizing bs cs with
  | nil => rfl
  | cons a as ih =>
    cases bs with
    | nil => simp [strLeAux] at h1
    | cons b bs =>
      cases cs with
      | nil => simp [strLeAux] at h2
      | cons c cs =>
        simp only [strLeAux] at h1 h2 ⊢
        rcases Nat.lt_trichotomy a.toNat b.toNat with hab | hab | hab
        · rcases Nat.lt_trichotomy b.toNat c.toNat with hbc | hbc | hbc
          · rw [if_pos (by omega : a.toNat < c.toNat)]
          · rw [if_pos (by omega : a.toNat < c.toNat)]
          · rw [if_neg (by omega : ¬ b.toNat < c.toNat),
              if_pos (by omega : c.toNat < b.toNat)] at h2
            exact absurd h2 (by simp)
        · rw [if_neg (by omega : ¬ a.toNat < b.toNat),
            if_neg (by omega : ¬ b.toNat < a.toNat)] at h1
          rcases Nat.lt_trichotomy b.toNat c.toNat with hbc | hbc | hbc
          · rw [if_pos (by omega : a.toNat < c.toNat)]
          · rw [if_neg (by omega : ¬ b.toNat < c.toNat),
              if_neg (by omega : ¬ c.toNat < b.toNat)] at h2
            rw [if_neg (by omega : ¬ a.toNat < c.toNat),
              if_neg (by omega : ¬ c.toNat < a.toNat)]
            exact ih h1 h2
          · rw [if_neg (by omega : ¬ b.toNat < c.toNat),
              if_pos (by omega : c.toNat < b.toNat)] at h2
            exact absurd h2 (by simp)
        · rw [if_neg (by omega : ¬ a.toNat < b.toNat),
            if_pos (by omega : b.toNat < a.toNat)] at h1
          exact absurd h1 (by simp)

theorem char_eq_of_toNat_eq {a b : Char} (h : a.toNat = b.toNat) : a = b := by
  cases a; cases b
  simp only [Char.toNat] at h
  exact Char.ext (UInt32.ext h)

theorem strLeAux_antisymm {as bs : List Char} (h1 : strLeAux as bs = true)
    (h2 : strLeAux bs as = true) : as = bs := by
  induction as generalizing bs with
  | nil =>
    cases bs with
    | nil => rfl
    | cons b bs => simp [strLeAux] at h2
  | cons a as ih =>
    cases bs with
    | nil => simp [strLeAux] at h1
    | cons b bs =>
      simp only [strLeAux] at h1 h2
      rcases Nat.lt_trichotomy a.toNat b.toNat with hab | hab | hab
      · rw [if_neg (by omega : ¬ b.toNat < a.toNat),
          if_pos (by omega : a.toNat < b.toNat)] at h2
        exact absurd h2 (by simp)
      · rw [if_neg (by omega : ¬ a.toNat < b.toNat),
          if_neg (by omega : ¬ b.toNat < a.toNat)] at h1
        rw [if_neg (by omega : ¬ b.toNat < a.toNat),
          if_neg (by omega : ¬ a.toNat < b.toNat)] at h2
        rw [char_eq_of_toNat_eq hab, ih h1 h2]
      · rw [if_neg (by omega : ¬ a.toNat < b.toNat),
          if_pos (by omega : b.toNat < a.toNat)] at h1
        exact absurd h1 (by simp)

theorem strLe_total (s t : String) : strLe s t = true ∨ strLe t s = true :=
  strLeAux_total s.data t.data

theorem strLe_trans {s t u : String} (h1 : strLe s t = true) (h2 : strLe t u = true) :
    strLe s u = true := strLeAux_trans h1 h2

theorem strLe_antisymm {s t : String} (h1 : strLe s t = true) (h2 : strLe t s = true) :
    s = t := by
  cases s; cases t
  exact congrArg String.mk (strLeAux_antisymm h1 h2)

/-! ### Resilient transport: common/httpclient.go

`RetryWithExponentialBackoff` retries an operation on a retryable `HTTPError`
(status 500/502/503/504), sleeping `delay + jitter` between attempts where
`jitter` is drawn uniformly from `[0, delay)` and `delay` doubles from 1
time-unit up to a 32 time-unit cap, for at most `maxRetries = 5` attempts.

The operation is embedded as a function from the 0-based attempt index to its
outcome; the random jitter source is a function from the sleep index to the
drawn jitter. The output records the result, the number of times the operation
was invoked, and the sequence of sleep durations — ghost instrumentation for
the counts the spec talks about. -/

inductive OpError where
  | http (status : Nat) (body : String)
  | other (msg : String)
deriving DecidableEq, Repr

def isRetryableErr : OpError → Bool
  | .http s _ => s == 500 || s == 502 || s == 503 || s == 504
  | .other _ => false

def maxRetries : Nat := 5

def baseDelay : Nat := 1

def maxDelay : Nat := 32

structure RetryOut (A : Type) where
  result : Except OpError A
  calls : Nat
  sleeps : List Nat
deriving Repr

def retryAux {A : Type} (op : Nat → Except OpError A) (jitter : Nat → Nat) :
    Nat → Nat → Nat → RetryOut A
  | i, _, 0 => ⟨.error (.other "loop exhausted"), i, []⟩
  | i, delay, fuel + 1 =>
    match op i with
    | .ok a => ⟨.ok a, i + 1, []⟩
    | .error e =>
      if isRetryableErr e then
        if fuel == 0 then ⟨.error e, i + 1, []⟩
        else
          let s := delay + jitter i
          let r := retryAux op jitter (i + 1) (min (delay * 2) maxDelay) fuel
          ⟨r.result, r.calls, s :: r.sleeps⟩
      else ⟨.error e, i + 1, []⟩

def RetryWithExponentialBackoff {A : Type} (op : Nat → Except OpError A)
    (jitter : Nat → Nat) : RetryOut A :=
  retryAux op jitter 0 baseDelay maxRetries

/-! ### Request executor: the esi client's `DoRequest` and `buildCacheKey`

`DoRequest` performs one HTTP request; on a 401/403 response, when the token
has a non-empty refresh token and an auth client is configured (`canRefresh`),
it invokes `RefreshToken` once and re-sends once with the new token. The
low-level `executeRequest` is embedded as a function from (token, call index)
to either a transport error or a (body, status) pair; the auth client as an
optional function from the refresh-token string to either an error or the
(possibly nil) new token. The output carries the result plus ghost traces: the
token passed to each `executeRequest` call and the argument of each
`RefreshToken` call. -/

structure Token where
  accessToken : String
  refreshToken : String
deriving DecidableEq, Repr

inductive ReqError where
  | transport (msg : String)
  | refreshFailed (wrapped : Option String)
  | httpError (status : Nat) (body : String)
deriving DecidableEq, Repr

def statusMatches (statusCode : Nat) (expected : List Nat) : Bool :=
  expected.any (fun s => statusCode == s)

def canRefresh : Option Token → Option (String → Except String (Option Token)) → Bool
  | some t, some _ => !(t.refreshToken == "")
  | _, _ => false

structure DoRequestOut where
  result : Except ReqError String
  sentTokens : List (Option Token)
  refreshCalls : List String

def DoRequest (exec : Option Token → Nat → Except String (String × Nat))
    (auth : Option (String → Except String (Option Token)))
    (token : Option Token) (expectedStatus : List Nat) : DoRequestOut :=
  let es := if expectedStatus.isEmpty then [200] else expectedStatus
  match exec token 0 with
  | .error e => ⟨.error (.transport e), [token], []⟩
  | .ok (data, status) =>
    if (status == 401 || status == 403) && canRefresh token auth then
      match token, auth with
      | some t, some refreshFn =>
        match refreshFn t.refreshToken with
        | .ok (some newToken) =>
          match exec (some newToken) 1 with
          | .error e => ⟨.error (.transport e), [token, some newToken], [t.refreshToken]⟩
          | .ok (data2, status2) =>
            if statusMatches status2 es then
              ⟨.ok data2, [token, some newToken], [t.refreshToken]⟩
            else
              ⟨.error (.httpError status2 data2), [token, some newToken], [t.refreshToken]⟩
        | .ok none => ⟨.error (.refreshFailed none), [token], [t.refreshToken]⟩
        | .error e => ⟨.error (.refreshFailed (some e)), [token], [t.refreshToken]⟩
      | _, _ =>
        -- unreachable: canRefresh demands a token and a configured auth client
        ⟨.error (.refreshFailed none), [token], []⟩
    else
      if statusMatches status es then ⟨.ok data, [token], []⟩
      else ⟨.error (.httpError status data), [token], []⟩

/-! The esi cache key: sort the parameter keys ascending, concatenate
`&key=value` pairs, prefix with `esi:<endpoint>:`. The Go map is embedded as an
association list; `sort.Strings` is embedded as an insertion sort over the
byte-lexicographic order above (the two agree on every list of keys since both
sort ascending). -/

def insertKeyAsc (k : String) : List String → List String
  | [] => [k]
  | x :: xs => if strLe k x then k :: x :: xs else x :: insertKeyAsc k xs

def sortStringsAsc : List String → List String
  | [] => []
  | x :: xs => insertKeyAsc x (sortStringsAsc xs)

def lookupParam (params : List (String × String)) (k : String) : String :=
  (params.lookup k).getD ""

def buildCacheKey (endpoint : String) (params : List (String × String)) : String :=
  let keys := sortStringsAsc (params.map Prod.fst)
  let queryParams :=
    keys.foldl (fun acc k => acc ++ "&" ++ k ++ "=" ++ lookupParam params k) ""
  "esi:" ++ endpoint ++ ":" ++ queryParams

/-! `GetBytes` parameter normalization: a nil map becomes the empty map, and a
missing "datasource" key defaults to "tranquility". The request URL's query is
produced by Go's `url.Values.Encode`, which also sorts by key; percent-escaping
is the identity on the values the claims concern and is not modelled. -/

def normalizeParams (params : Option (List (String × String))) : List (String × String) :=
  let p := params.getD []
  if (p.lookup "datasource").isSome then p
  else p ++ [("datasource", "tranquility")]

def urlQueryEncode (params : List (String × String)) : String :=
  let keys := sortStringsAsc (params.map Prod.fst)
  String.intercalate "&" (keys.map (fun k => k ++ "=" ++ lookupParam params k))

def getBytesCacheKey (endpoint : String) (params : Option (List (String × String))) : String :=
  buildCacheKey endpoint (normalizeParams params)

def getBytesRequestQuery (params : Option (List (String × String))) : String :=
  urlQueryEncode (normalizeParams params)

/-! ### Data model: common/model/definitions.go

The killmail record types. `float64` and `time.Time` fields are `Int`
carriers; the victim's opaque `items []interface{}` payload is a list of an
opaque `Int` carrier. -/

structure Position where
  x : Int
  y : Int
  z : Int
deriving DecidableEq, Repr

structure Victim where
  characterID : Int
  corporationID : Int
  damageTaken : Int
  items : List Int
  position : Position
  shipTypeID : Int
deriving DecidableEq, Repr

structure Attacker where
  allianceID : Int
  characterID : Int
  corporationID : Int
  damageDone : Int
  finalBlow : Bool
  securityStatus : Int
  shipTypeID : Int
  weaponTypeID : Int
deriving DecidableEq, Repr

structure EsiKillMail where
  killMailID : Int
  killMailTime : Int
  solarSystemID : Int
  victim : Victim
  attackers : List Attacker
deriving DecidableEq, Repr

structure ZKB where
  locationID : Int
  hash : String
  fittedValue : Int
  droppedValue : Int
  destroyedValue : Int
  totalValue : Int
  points : Int
  npc : Bool
  solo : Bool
  awox : Bool
deriving DecidableEq, Repr

structure ZkillMail where
  killMailID : Int
  zkb : ZKB
deriving DecidableEq, Repr

structure ZkillMailFeedResponse where
  killmailID : Int
  solarSystemID : Int
  victim : Victim
  attackers : List Attacker
  zkb : ZKB
deriving DecidableEq, Repr

structure FlattenedKillMail where
  killMailID : Int
  killMailTime : Int
  solarSystemID : Int
  victim : Victim
  attackers : List Attacker
  locationID : Int
  hash : String
  fittedValue : Int
  droppedValue : Int
  destroyedValue : Int
  totalValue : Int
  points : Int
  npc : Bool
  solo : Bool
  awox : Bool
deriving DecidableEq, Repr

/-- ConvertToFlattened merges an EsiKillMail with a ZkillMail into a
FlattenedKillMail, copying the identifying/positional fields from the ESI
detail record and the valuation/flag fields from the zKill summary's ZKB
block. -/
def ConvertToFlattened (esi : EsiKillMail) (zkill : ZkillMail) : FlattenedKillMail :=
  { killMailID := esi.killMailID
    killMailTime := esi.killMailTime
    solarSystemID := esi.solarSystemID
    victim := esi.victim
    attackers := esi.attackers
    locationID := zkill.zkb.locationID
    hash := zkill.zkb.hash
    fittedValue := zkill.zkb.fittedValue
    droppedValue := zkill.zkb.droppedValue
    destroyedValue := zkill.zkb.destroyedValue
    totalValue := zkill.zkb.totalValue
    points := zkill.zkb.points
    npc := zkill.zkb.npc
    solo := zkill.zkb.solo
    awox := zkill.zkb.awox }

/-! ### zKill client: modules/zkill/client.go

`BuildCacheKey` renders `"zkill:%s:%sID:%d:%d:%02d:%d"`. Go's `%d` on an int
is decimal with a leading minus for negatives, exactly `toString` on `Int`;
`%02d` zero-pads to width 2, embedded by `fmt02`. -/

def fmt02 (n : Int) : String :=
  let s := toString n
  if s.length < 2 then "0" ++ s else s

def BuildCacheKey (apiType entityType : String) (entityID year month page : Int) : String :=
  "zkill:" ++ apiType ++ ":" ++ entityType ++ "ID:" ++ toString entityID ++ ":" ++
    toString year ++ ":" ++ fmt02 month ++ ":" ++ toString page

def zkillRequestURL (baseURL apiType entityType : String)
    (entityID year month page : Int) : String :=
  baseURL ++ "/api/" ++ apiType ++ "/" ++ entityType ++ "ID/" ++ toString entityID ++
    "/year/" ++ toString year ++ "/month/" ++ toString month ++
    "/page/" ++ toString page ++ "/"

def zkillCacheExpirationHours : Nat := 770

/-- One pending cache write: key, decoded page value, TTL in hours. -/
structure CacheWrite where
  key : String
  value : List ZkillMail
  ttlHours : Nat
deriving Repr

/-- fetchPageData: consult the cache under `BuildCacheKey`; on a miss fetch the
page from the request URL; on success schedule a cache write whose TTL is 24
hours when (year, month) is the current wall-clock month and the 770-hour
default otherwise. The cache is a function from key to the decoded cached page
(`none` models both a miss and an undecodable entry, which fall through
identically); the wall clock is passed as (currentYear, currentMonth). The
second output component is the cache write performed, if any. -/
def fetchPageData (cacheGet : String → Option (List ZkillMail))
    (doGetKillMails : String → Except String (List ZkillMail))
    (baseURL apiType entityType : String) (entityID page year month : Int)
    (currentYear currentMonth : Int) :
    Except String (List ZkillMail) × Option CacheWrite :=
  let requestURL := zkillRequestURL baseURL apiType entityType entityID year month page
  let cacheKey := BuildCacheKey apiType entityType entityID year month page
  let isCurrentMonth := year == currentYear && month == currentMonth
  match cacheGet cacheKey with
  | some kills => (.ok kills, none)
  | none =>
    match doGetKillMails requestURL with
    | .error e => (.error e, none)
    | .ok kills =>
      let exp := if isCurrentMonth then 24 else zkillCacheExpirationHours
      (.ok kills, some ⟨cacheKey, kills, exp⟩)

structure SingleCacheWrite where
  key : String
  value : List ZkillMailFeedResponse
  ttlHours : Nat
deriving Repr

/-- GetSingleKillmail: consult the cache under `"zkill:single:killID:<id>"`
(a hit needs a decodable, non-empty cached array); on a miss fetch from
`/api/killID/<id>/`, fail if the feed is empty, else cache the array under the
same key with the default TTL and return its first element. -/
def GetSingleKillmail (cacheGet : String → Option (List ZkillMailFeedResponse))
    (doGetSingle : String → Except String (List ZkillMailFeedResponse))
    (baseURL : String) (killID : Int) :
    Except String ZkillMailFeedResponse × Option SingleCacheWrite :=
  let requestURL := baseURL ++ "/api/killID/" ++ toString killID ++ "/"
  let cacheKey := "zkill:single:killID:" ++ toString killID
  match cacheGet cacheKey with
  | some (k :: _) => (.ok k, none)
  | _ =>
    match doGetSingle requestURL with
    | .error e => (.error e, none)
    | .ok [] => (.error ("no killmail returned for killID=" ++ toString killID), none)
    | .ok (k :: rest) =>
      (.ok k, some ⟨cacheKey, k :: rest, zkillCacheExpirationHours⟩)

/-! ### Single-kill retry loop: `doGetSingleKillMails`

Before each of up to 5 attempts the loop polls `ctx.Done()`; if the signal is
already triggered it returns `ctx.Err()` without another network call. An
attempt whose HTTP `Do` fails, or whose 200 body fails to decode, or that
yields no records, sleeps and retries; a non-empty decoded array returns
immediately. (Sleep durations are not tracked here; the attempt trace is.)

The cancellation signal is a function from the 1-based attempt number to
whether `ctx.Done()` is already closed when polled there; each attempt's
network outcome is a function from the attempt number. The second output
component counts the `Do` network calls made. -/

structure SingleAttempt where
  doFail : Bool
  status : Nat
  decoded : Option (List ZkillMailFeedResponse)
deriving Repr

inductive SingleErr where
  | ctxCanceled
  | allAttemptsFailed
deriving DecidableEq, Repr

def singleMaxAttempts : Nat := 5

def doGetSingleAux (done : Nat → Bool) (att : Nat → SingleAttempt) :
    Nat → Nat → List ZkillMailFeedResponse →
    Except SingleErr (List ZkillMailFeedResponse) × Nat
  | _, 0, _ => (.error .allAttemptsFailed, 0)
  | attempt, fuel + 1, kills =>
    if done attempt then (.error .ctxCanceled, 0)
    else
      let a := att attempt
      if a.doFail then
        let r := doGetSingleAux done att (attempt + 1) fuel kills
        (r.1, r.2 + 1)
      else
        let kills2 :=
          if a.status == 200 then
            match a.decoded with
            | some ks => ks
            | none => kills
          else kills
        if kills2.length > 0 then (.ok kills2, 1)
        else
          let r := doGetSingleAux done att (attempt + 1) fuel kills2
          (r.1, r.2 + 1)

def doGetSingleKillMails (done : Nat → Bool) (att : Nat → SingleAttempt) :
    Except SingleErr (List ZkillMailFeedResponse) × Nat :=
  doGetSingleAux done att 1 singleMaxAttempts []

/-! ### zKill service: `GetKillMailDataForMonth` / `processKillMails`

The aggregation run. The per-(kind, id, direction) page fetcher is a function
from the page number; the per-record enrichment step (`AddEsiKillMail`) is a
parameter of `processKillMails`, mirroring the `svc.AddEsiKillMail` collaborator
call, and is instantiated with the concrete `AddEsiKillMail` at the top level.
The `killMailIDs map[int64]bool` dedup set is an insert-if-absent list. The
page loop's second output component is the ghost list of page numbers actually
fetched (one entry per `GetKillsPageData`/`GetLossPageData` call). -/

def maxPages : Nat := 100

/-- AddEsiKillMail flattens one zKill summary record (the ESI enrichment is
stubbed out in the source) and appends it to the accumulated slice; the
remaining FlattenedKillMail fields keep their Go zero values. -/
def AddEsiKillMail (mail : ZkillMail) (aggregated : List FlattenedKillMail) :
    Except String (List FlattenedKillMail) :=
  let flattened : FlattenedKillMail :=
    { killMailID := mail.killMailID
      killMailTime := 0
      solarSystemID := 0
      victim := ⟨0, 0, 0, [], ⟨0, 0, 0⟩, 0⟩
      attackers := []
      locationID := 0
      hash := mail.zkb.hash
      fittedValue := 0
      droppedValue := mail.zkb.droppedValue
      destroyedValue := 0
      totalValue := mail.zkb.totalValue
      points := 0
      npc := false
      solo := false
      awox := false }
  .ok (aggregated ++ [flattened])

def processKillMails
    (addEsi : ZkillMail → List FlattenedKillMail → Except String (List FlattenedKillMail)) :
    List ZkillMail → List Int → List FlattenedKillMail →
    Except String (List FlattenedKillMail × List Int)
  | [], seen, aggregated => .ok (aggregated, seen)
  | m :: rest, seen, aggregated =>
    if m.killMailID ∈ seen then
      processKillMails addEsi rest seen aggregated
    else
      match addEsi m aggregated with
      | .error _ => processKillMails addEsi rest seen aggregated
      | .ok updated => processKillMails addEsi rest (m.killMailID :: seen) updated

structure AggState where
  aggregated : List FlattenedKillMail
  seen : List Int
deriving Repr

/-- One direction's page loop for one (entity type, entity id):
`for page := 1; page <= maxPages; page++`, breaking on a fetch error, an empty
page, or a processing error. Second component: the pages fetched, in order. -/
def pageLoopAux
    (fetch : Nat → Except String (List ZkillMail))
    (addEsi : ZkillMail → List FlattenedKillMail → Except String (List FlattenedKillMail)) :
    Nat → Nat → AggState → AggState × List Nat
  | _, 0, st => (st, [])
  | page, fuel + 1, st =>
    match fetch page with
    | .error _ => (st, [page])
    | .ok [] => (st, [page])
    | .ok (m :: rest) =>
      match processKillMails addEsi (m :: rest) st.seen st.aggregated with
      | .error _ => (st, [page])
      | .ok (aggregated, seen) =>
        let r := pageLoopAux fetch addEsi (page + 1) fuel ⟨aggregated, seen⟩
        (r.1, page :: r.2)

def pageLoop (fetch : Nat → Except String (List ZkillMail)) (st : AggState) :
    AggState × List Nat :=
  pageLoopAux fetch AddEsiKillMail 1 maxPages st

/-- One (entity type, entity id) iteration of the inner loop: the kills page
loop, then the losses page loop, threading the aggregation state and adding the
page-fetch counts. -/
def runTuple (kf lf : Nat → Except String (List ZkillMail)) (acc : AggState × Nat) :
    AggState × Nat :=
  let k := pageLoop kf acc.1
  let l := pageLoop lf k.1
  (l.1, acc.2 + k.2.length + l.2.length)

def runGroup (killsFetch lossFetch : String → Int → Nat → Except String (List ZkillMail))
    (etype : String) (acc : AggState × Nat) (ids : List Int) : AggState × Nat :=
  ids.foldl (fun acc entityID =>
    runTuple (killsFetch etype entityID) (lossFetch etype entityID) acc) acc

/-- GetKillMailDataForMonth: iterate entity groups (the Go map is embedded as
an ordered list of (entity type, ids); every claim proved below is independent
of that order), for each id run the kills page loop then the losses page loop,
and return the accumulated records with a nil error. `killsFetch`/`lossFetch`
embed `GetKillsPageData`/`GetLossPageData` for the fixed (year, month):
arguments are entity type, entity id, page. The second output component is the
ghost total count of page-fetch calls. -/
def GetKillMailDataForMonth
    (killsFetch lossFetch : String → Int → Nat → Except String (List ZkillMail))
    (groups : List (String × List Int)) :
    Except String (List FlattenedKillMail) × Nat :=
  let final := groups.foldl
    (fun acc g => runGroup killsFetch lossFetch g.1 acc g.2)
    (⟨[], []⟩, 0)
  (.ok final.1.aggregated, final.2)

/-! ## Claims -/

/-- C9: `ConvertToFlattened` (the Merge/flatten contract) is a total function —
one merged record per (detail, summary) pair, no error path — whose
identifying and positional fields (kill-mail id, time, solar system, victim,
attackers) come from the ESI detail record and whose valuation/flag fields
(total/dropped/destroyed value, points, NPC/solo/awox flags, location id,
hash) come from the zKill summary's ZKB metadata block. -/
theorem convertToFlattened_merge_contract (esi : EsiKillMail) (zkill : ZkillMail) :
    (ConvertToFlattened esi zkill).killMailID = esi.killMailID ∧
    (ConvertToFlattened esi zkill).killMailTime = esi.killMailTime ∧
    (ConvertToFlattened esi zkill).solarSystemID = esi.solarSystemID ∧
    (ConvertToFlattened esi zkill).victim = esi.victim ∧
    (ConvertToFlattened esi zkill).attackers = esi.attackers ∧
    (ConvertToFlattened esi zkill).totalValue = zkill.zkb.totalValue ∧
    (ConvertToFlattened esi zkill).droppedValue = zkill.zkb.droppedValue ∧
    (ConvertToFlattened esi zkill).destroyedValue = zkill.zkb.destroyedValue ∧
    (ConvertToFlattened esi zkill).points = zkill.zkb.points ∧
    (ConvertToFlattened esi zkill).npc = zkill.zkb.npc ∧
    (ConvertToFlattened esi zkill).solo = zkill.zkb.solo ∧
    (ConvertToFlattened esi zkill).awox = zkill.zkb.awox ∧
    (ConvertToFlattened esi zkill).locationID = zkill.zkb.locationID ∧
    (ConvertToFlattened esi zkill).hash = zkill.zkb.hash :=
  ⟨rfl, rfl, rfl, rfl, rfl, rfl, rfl, rfl, rfl, rfl, rfl, rfl, rfl, rfl⟩

/-- C1: when the first response of `DoRequest` has status 401 or 403 and the
supplied token has a non-empty refresh token and an auth client is configured,
the refresh collaborator is invoked exactly once, with that refresh token; on
refresh success the request is re-sent exactly once, with the new token; on
refresh failure a distinct refresh-failure error is returned without
re-sending; and when the re-sent request again yields an unexpected 401/403,
the result is that second response's error, with no further refresh. -/
theorem doRequest_refresh_on_auth_failure
    (exec : Option Token → Nat → Except String (String × Nat))
    (auth : String → Except String (Option Token))
    (t : Token) (expectedStatus : List Nat) (data : String) (status : Nat)
    (hrt : t.refreshToken ≠ "")
    (hexec : exec (some t) 0 = .ok (data, status))
    (hstatus : status = 401 ∨ status = 403) :
    (DoRequest exec (some auth) (some t) expectedStatus).refreshCalls = [t.refreshToken] ∧
    (∀ newToken, auth t.refreshToken = .ok (some newToken) →
      (DoRequest exec (some auth) (some t) expectedStatus).sentTokens =
        [some t, some newToken]) ∧
    (∀ e, auth t.refreshToken = .error e →
      (DoRequest exec (some auth) (some t) expectedStatus).result =
        .error (.refreshFailed (some e)) ∧
      (DoRequest exec (some auth) (some t) expectedStatus).sentTokens = [some t]) ∧
    (∀ newToken data2 status2, auth t.refreshToken = .ok (some newToken) →
      exec (some newToken) 1 = .ok (data2, status2) →
      statusMatches status2 (if expectedStatus.isEmpty then [200] else expectedStatus) = false →
      (DoRequest exec (some auth) (some t) expectedStatus).result =
        .error (.httpError status2 data2)) := by
  have hc : ((status == 401 || status == 403) && canRefresh (some t) (some auth)) = true := by
    rcases hstatus with h | h <;> subst h <;> simp [canRefresh, hrt]
  rcases hr : auth t.refreshToken with e | newTokenOpt
  · refine ⟨?_, ?_, ?_, ?_⟩
    · simp [DoRequest, hexec, hc, hr]
    · intro newToken hn; cases hn
    · intro e' he
      injection he with he'; subst he'
      constructor <;> simp [DoRequest, hexec, hc, hr]
    · intro newToken data2 status2 hn; cases hn
  · cases newTokenOpt with
    | none =>
      refine ⟨?_, ?_, ?_, ?_⟩
      · simp [DoRequest, hexec, hc, hr]
      · intro newToken hn; injection hn with hn'; cases hn'
      · intro e' he; cases he
      · intro newToken data2 status2 hn; injection hn with hn'; cases hn'
    | some newToken =>
      rcases hexec2 : exec (some newToken) 1 with e2 | pr
      · refine ⟨?_, ?_, ?_, ?_⟩
        · simp [DoRequest, hexec, hc, hr, hexec2]
        · intro nt hn; injection hn with hn'; injection hn' with hn''
          subst hn''; simp [DoRequest, hexec, hc, hr, hexec2]
        · intro e' he; cases he
        · intro nt data2 status2 hn h2
          injection hn with hn'; injection hn' with hn''
          subst hn''; rw [hexec2] at h2; cases h2
      · obtain ⟨data2, status2⟩ := pr
        refine ⟨?_, ?_, ?_, ?_⟩
        · simp [DoRequest, hexec, hc, hr, hexec2]
          split <;> split <;> rfl
        · intro nt hn; injection hn with hn'; injection hn' with hn''
          subst hn''
          simp [DoRequest, hexec, hc, hr, hexec2]
          split <;> split <;> rfl
        · intro e' he; cases he
        · intro nt d2 s2 hn h2 hm
          injection hn with hn'; injection hn' with hn''
          subst hn''; rw [hexec2] at h2; injection h2 with h2'
          injection h2' with hd hs; subst hd; subst hs
          have hm' := hm
          simp only [List.isEmpty_eq_true] at hm'
          simp [DoRequest, hexec, hc, hr, hexec2, hm']

def c1ExecStub : Option Token → Nat → Except String (String × Nat) :=
  fun t _ => if t = some ⟨"new", ""⟩ then .ok ("denied2", 403) else .ok ("denied", 403)

def c1AuthStub : String → Except String (Option Token) :=
  fun _ => .ok (some ⟨"new", ""⟩)

/-- C1 witness: on responses [403, 403] with a succeeding refresh, the refresh
collaborator runs once and the final result is the second response's error. -/
theorem doRequest_refresh_on_auth_failure_witness :
    (DoRequest c1ExecStub (some c1AuthStub) (some ⟨"a", "rt"⟩) []).refreshCalls = ["rt"] ∧
    (DoRequest c1ExecStub (some c1AuthStub) (some ⟨"a", "rt"⟩) []).result =
      .error (.httpError 403 "denied2") := by
  have h := doRequest_refresh_on_auth_failure c1ExecStub c1AuthStub ⟨"a", "rt"⟩ []
    "denied" 403 (by decide) rfl (Or.inr rfl)
  exact ⟨h.1, h.2.2.2 ⟨"new", ""⟩ "denied2" 403 rfl rfl (by decide)⟩

/-! Helper development for the backoff claim: the delay value carried by the
loop after `k` sleeps, and the list of sleeps issued across `n` consecutive
retryable failures. -/

def delaySeq (d : Nat) : Nat → Nat
  | 0 => d
  | k + 1 => delaySeq (min (d * 2) maxDelay) k

def sleepsFrom (jitter : Nat → Nat) : Nat → Nat → Nat → List Nat
  | _, _, 0 => []
  | d, i, n + 1 => (d + jitter i) :: sleepsFrom jitter (min (d * 2) maxDelay) (i + 1) n

theorem delaySeq_pow (k : Nat) : ∀ m, delaySeq (min (2 ^ m) maxDelay) k = min (2 ^ (m + k)) maxDelay := by
  induction k with
  | zero => intro m; simp [delaySeq]
  | succ k ih =>
    intro m
    have h2 : min (min (2 ^ m) maxDelay * 2) maxDelay = min (2 ^ (m + 1)) maxDelay := by
      have hp : 2 ^ (m + 1) = 2 ^ m * 2 := by rw [Nat.pow_succ]
      rw [hp]
      simp only [maxDelay]
      omega
    calc delaySeq (min (2 ^ m) maxDelay) (k + 1)
        = delaySeq (min (2 ^ (m + 1)) maxDelay) k := by rw [delaySeq, h2]
      _ = min (2 ^ (m + 1 + k)) maxDelay := ih (m + 1)
      _ = min (2 ^ (m + (k + 1))) maxDelay := by rw [Nat.add_assoc, Nat.add_comm 1 k]

theorem delaySeq_base (k : Nat) : delaySeq baseDelay k = min (2 ^ k) maxDelay := by
  have h : baseDelay = min (2 ^ 0) maxDelay := by decide
  rw [h, delaySeq_pow k 0, Nat.zero_add]

theorem sleepsFrom_length (jitter : Nat → Nat) :
    ∀ n d i, (sleepsFrom jitter d i n).length = n := by
  intro n
  induction n with
  | zero => intro d i; rfl
  | succ n ih => intro d i; simp [sleepsFrom, ih]

theorem sleepsFrom_getD (jitter : Nat → Nat) :
    ∀ n d i k, k < n →
      (sleepsFrom jitter d i n).getD k 0 = delaySeq d k + jitter (i + k) := by
  intro n
  induction n with
  | zero => intro d i k hk; omega
  | succ n ih =>
    intro d i k hk
    cases k with
    | zero => simp [sleepsFrom, delaySeq]
    | succ k =>
      calc (sleepsFrom jitter d i (n + 1)).getD (k + 1) 0
          = (sleepsFrom jitter (min (d * 2) maxDelay) (i + 1) n).getD k 0 := rfl
        _ = delaySeq (min (d * 2) maxDelay) k + jitter (i + 1 + k) := ih _ _ _ (by omega)
        _ = delaySeq d (k + 1) + jitter (i + (k + 1)) := by
            rw [delaySeq, Nat.add_assoc, Nat.add_comm 1 k]

theorem retryAux_calls_le {A : Type} (op : Nat → Except OpError A) (jitter : Nat → Nat) :
    ∀ fuel i d, (retryAux op jitter i d fuel).calls ≤ i + fuel := by
  intro fuel
  induction fuel with
  | zero => intro i d; simp [retryAux]
  | succ fuel ih =>
    intro i d
    simp only [retryAux]
    rcases hop : op i with e | a
    · by_cases hre : isRetryableErr e = true
      · by_cases hf : fuel = 0
        · subst hf; simp [hre]
        · have hf' : (fuel == 0) = false := by simpa using hf
          simp only [hre, if_true, hf', if_false]
          have := ih (i + 1) (min (d * 2) maxDelay)
          simpa using Nat.le_trans this (by omega)
      · have hre' : isRetryableErr e = false := by simpa using hre
        simp [hre']
    · simp

/-- Advancing the retry loop across `n` consecutive retryable failures: the
loop proceeds to attempt `i + n` with the delay doubled (and capped) `n`
times, having issued one sleep per failure. -/
theorem retryAux_advance {A : Type} (op : Nat → Except OpError A) (jitter : Nat → Nat) :
    ∀ (n i d fuel : Nat), n < fuel →
    (∀ k, k < n → ∃ e, op (i + k) = .error e ∧ isRetryableErr e = true) →
    retryAux op jitter i d fuel =
      ⟨(retryAux op jitter (i + n) (delaySeq d n) (fuel - n)).result,
       (retryAux op jitter (i + n) (delaySeq d n) (fuel - n)).calls,
       sleepsFrom jitter d i n ++ (retryAux op jitter (i + n) (delaySeq d n) (fuel - n)).sleeps⟩ := by
  intro n
  induction n with
  | zero =>
    intro i d fuel hfuel hpre
    simp [sleepsFrom, delaySeq]
  | succ n ih =>
    intro i d fuel hfuel hpre
    obtain ⟨fuel', rfl⟩ : ∃ m, fuel = m + 1 := ⟨fuel - 1, by omega⟩
    obtain ⟨e, hop, hre⟩ := hpre 0 (Nat.succ_pos n)
    rw [Nat.add_zero] at hop
    have hf' : (fuel' == 0) = false := by
      have : 0 < fuel' := by omega
      simpa using Nat.pos_iff_ne_zero.mp this
    have step : retryAux op jitter i d (fuel' + 1) =
        ⟨(retryAux op jitter (i + 1) (min (d * 2) maxDelay) fuel').result,
         (retryAux op jitter (i + 1) (min (d * 2) maxDelay) fuel').calls,
         (d + jitter i) :: (retryAux op jitter (i + 1) (min (d * 2) maxDelay) fuel').sleeps⟩ := by
      simp [retryAux, hop, hre, hf']
    rw [step, ih (i + 1) (min (d * 2) maxDelay) fuel' (by omega)
      (fun k hk => by
        obtain ⟨e', hop', hre'⟩ := hpre (k + 1) (by omega)
        refine ⟨e', ?_, hre'⟩
        have hsh : i + 1 + k = i + (k + 1) := by omega
        rw [hsh]; exact hop')]
    have hidx : i + 1 + n = i + (n + 1) := by omega
    have hfuel2 : fuel' - n = fuel' + 1 - (n + 1) := by omega
    rw [hidx, hfuel2]
    simp [sleepsFrom, delaySeq]

/-- C2: `RetryWithExponentialBackoff` retries only on an HTTPError with status
in {500, 502, 503, 504}; after N consecutive retryable failures a success on
attempt N makes exactly N+1 invocations; the k-th sleep (0-based; between
attempts k+1 and k+2) lies in [d, 2d) with d = min(2^k, 32) time-units, given
that each jitter draw is below the current delay as `rand.Int63n` guarantees;
on exhaustion or on a non-retryable error the operation's last error is
returned unchanged; and the operation is never invoked more than 5 times. -/
theorem retryWithExponentialBackoff_contract
    (op : Nat → Except OpError String) (jitter : Nat → Nat)
    (hjit : ∀ k, jitter k < min (2 ^ k) maxDelay) :
    (∀ k e, k < maxRetries →
       (∀ j, j < k → ∃ ej, op j = .error ej ∧ isRetryableErr ej = true) →
       op k = .error e → isRetryableErr e = false →
       (RetryWithExponentialBackoff op jitter).result = .error e ∧
       (RetryWithExponentialBackoff op jitter).calls = k + 1) ∧
    (∀ n a, n < maxRetries →
       (∀ j, j < n → ∃ ej, op j = .error ej ∧ isRetryableErr ej = true) →
       op n = .ok a →
       (RetryWithExponentialBackoff op jitter).result = .ok a ∧
       (RetryWithExponentialBackoff op jitter).calls = n + 1 ∧
       (RetryWithExponentialBackoff op jitter).sleeps.length = n ∧
       (∀ k, k < n →
         min (2 ^ k) maxDelay ≤ (RetryWithExponentialBackoff op jitter).sleeps.getD k 0 ∧
         (RetryWithExponentialBackoff op jitter).sleeps.getD k 0 < 2 * min (2 ^ k) maxDelay)) ∧
    (∀ e : Nat → OpError,
       (∀ j, j < maxRetries → op j = .error (e j) ∧ isRetryableErr (e j) = true) →
       (RetryWithExponentialBackoff op jitter).result = .error (e (maxRetries - 1)) ∧
       (RetryWithExponentialBackoff op jitter).calls = maxRetries) ∧
    (RetryWithExponentialBackoff op jitter).calls ≤ maxRetries := by
  have h5 : maxRetries = 5 := rfl
  refine ⟨?_, ?_, ?_, ?_⟩
  · intro k e hk hpre hop hnr
    have hpre0 : ∀ j, j < k → ∃ ej, op (0 + j) = .error ej ∧ isRetryableErr ej = true := by
      intro j hj; rw [Nat.zero_add]; exact hpre j hj
    have adv := retryAux_advance op jitter k 0 baseDelay maxRetries hk hpre0
    rw [Nat.zero_add] at adv
    obtain ⟨m, hm⟩ : ∃ m, maxRetries - k = m + 1 := ⟨maxRetries - k - 1, by omega⟩
    have hr : retryAux op jitter k (delaySeq baseDelay k) (maxRetries - k) =
        ⟨.error e, k + 1, []⟩ := by
      rw [hm]; simp [retryAux, hop, hnr]
    rw [hr] at adv
    exact ⟨by rw [RetryWithExponentialBackoff, adv], by rw [RetryWithExponentialBackoff, adv]⟩
  · intro n a hn hpre hop
    have hpre0 : ∀ j, j < n → ∃ ej, op (0 + j) = .error ej ∧ isRetryableErr ej = true := by
      intro j hj; rw [Nat.zero_add]; exact hpre j hj
    have adv := retryAux_advance op jitter n 0 baseDelay maxRetries hn hpre0
    rw [Nat.zero_add] at adv
    obtain ⟨m, hm⟩ : ∃ m, maxRetries - n = m + 1 := ⟨maxRetries - n - 1, by omega⟩
    have hr : retryAux op jitter n (delaySeq baseDelay n) (maxRetries - n) =
        ⟨.ok a, n + 1, []⟩ := by
      rw [hm]; simp [retryAux, hop]
    rw [hr] at adv
    have hsl : (RetryWithExponentialBackoff op jitter).sleeps =
        sleepsFrom jitter baseDelay 0 n := by
      rw [RetryWithExponentialBackoff, adv]; simp
    refine ⟨by rw [RetryWithExponentialBackoff, adv],
      by rw [RetryWithExponentialBackoff, adv], ?_, ?_⟩
    · rw [hsl, sleepsFrom_length]
    · intro k hk
      rw [hsl, sleepsFrom_getD jitter n baseDelay 0 k hk, delaySeq_base, Nat.zero_add]
      have := hjit k
      omega
  · intro e hall
    have hpre0 : ∀ j, j < maxRetries - 1 →
        ∃ ej, op (0 + j) = .error ej ∧ isRetryableErr ej = true := by
      intro j hj
      obtain ⟨h1, h2⟩ := hall j (by omega)
      exact ⟨e j, by rw [Nat.zero_add]; exact h1, h2⟩
    have adv := retryAux_advance op jitter (maxRetries - 1) 0 baseDelay maxRetries
      (by omega) hpre0
    rw [Nat.zero_add] at adv
    obtain ⟨hop4, hre4⟩ := hall (maxRetries - 1) (by omega)
    have hr : retryAux op jitter (maxRetries - 1) (delaySeq baseDelay (maxRetries - 1))
        (maxRetries - (maxRetries - 1)) = ⟨.error (e (maxRetries - 1)), maxRetries, []⟩ := by
      have hone : maxRetries - (maxRetries - 1) = 0 + 1 := by rw [h5]
      rw [hone]
      simp [retryAux, hop4, hre4]
      rw [h5]
    rw [hr] at adv
    exact ⟨by rw [RetryWithExponentialBackoff, adv], by rw [RetryWithExponentialBackoff, adv]⟩
  · have := retryAux_calls_le op jitter maxRetries 0 baseDelay
    simpa [RetryWithExponentialBackoff] using this

def c2OpStub : Nat → Except OpError String :=
  fun i => if i < 2 then .error (.http 503 "temporary issue") else .ok "success"

/-- C2 witness: two 503 failures then success — three invocations, two sleeps,
the first in [1, 2) and the second in [2, 4). -/
theorem retryWithExponentialBackoff_contract_witness :
    (RetryWithExponentialBackoff c2OpStub (fun _ => 0)).result = .ok "success" ∧
    (RetryWithExponentialBackoff c2OpStub (fun _ => 0)).calls = 3 ∧
    (RetryWithExponentialBackoff c2OpStub (fun _ => 0)).sleeps.length = 2 ∧
    1 ≤ (RetryWithExponentialBackoff c2OpStub (fun _ => 0)).sleeps.getD 0 0 ∧
    (RetryWithExponentialBackoff c2OpStub (fun _ => 0)).sleeps.getD 1 0 < 4 := by
  have hjit : ∀ k, (fun (_ : Nat) => 0) k < min (2 ^ k) maxDelay := by
    intro k
    exact lt_min (by positivity) (by rw [maxDelay]; norm_num)
  have h := (retryWithExponentialBackoff_contract c2OpStub (fun _ => 0) hjit).2.1 2 "success"
    (by decide)
    (by
      intro j hj
      refine ⟨.http 503 "temporary issue", ?_, rfl⟩
      show (if j < 2 then (.error (.http 503 "temporary issue") : Except OpError String)
        else .ok "success") = .error (.http 503 "temporary issue")
      rw [if_pos hj])
    rfl
  have hb0 := h.2.2.2 0 (by omega)
  have hb1 := h.2.2.2 1 (by omega)
  refine ⟨h.1, h.2.1, h.2.2.1, ?_, ?_⟩
  · have : min (2 ^ 0) maxDelay = 1 := by decide
    omega
  · have : min (2 ^ 1) maxDelay = 2 := by decide
    omega

/-! Helper development for the pagination and aggregation claims. -/

theorem processKillMails_ok
    (addEsi : ZkillMail → List FlattenedKillMail → Except String (List FlattenedKillMail)) :
    ∀ (mails : List ZkillMail) (seen : List Int) (aggregated : List FlattenedKillMail),
      ∃ out, processKillMails addEsi mails seen aggregated = .ok out := by
  intro mails
  induction mails with
  | nil => intro seen aggregated; exact ⟨(aggregated, seen), rfl⟩
  | cons m rest ih =>
    intro seen aggregated
    by_cases hmem : m.killMailID ∈ seen
    · obtain ⟨out, hout⟩ := ih seen aggregated
      exact ⟨out, by rw [processKillMails, if_pos hmem]; exact hout⟩
    · rcases hadd : addEsi m aggregated with e | updated
      · obtain ⟨out, hout⟩ := ih seen aggregated
        exact ⟨out, by rw [processKillMails, if_neg hmem, hadd]; exact hout⟩
      · obtain ⟨out, hout⟩ := ih (m.killMailID :: seen) updated
        exact ⟨out, by rw [processKillMails, if_neg hmem, hadd]; exact hout⟩

theorem pageLoopAux_pages_consecutive
    (fetch : Nat → Except String (List ZkillMail))
    (addEsi : ZkillMail → List FlattenedKillMail → Except String (List FlattenedKillMail)) :
    ∀ (fuel page : Nat) (st : AggState),
      (pageLoopAux fetch addEsi page fuel st).2 =
        List.range' page (pageLoopAux fetch addEsi page fuel st).2.length := by
  intro fuel
  induction fuel with
  | zero => intro page st; rfl
  | succ fuel ih =>
    intro page st
    rcases hf : fetch page with e | mails
    · simp [pageLoopAux, hf, List.range']
    · cases mails with
      | nil => simp [pageLoopAux, hf, List.range']
      | cons m rest =>
        rcases hp : processKillMails addEsi (m :: rest) st.seen st.aggregated with e | pr
        · simp [pageLoopAux, hf, hp, List.range']
        · obtain ⟨aggregated, seen⟩ := pr
          have := ih (page + 1) ⟨aggregated, seen⟩
          simp only [pageLoopAux, hf, hp]
          simp only [List.length_cons, List.range'_succ]
          exact congrArg (page :: ·) this

theorem pageLoopAux_length_le
    (fetch : Nat → Except String (List ZkillMail))
    (addEsi : ZkillMail → List FlattenedKillMail → Except String (List FlattenedKillMail)) :
    ∀ (fuel page : Nat) (st : AggState),
      (pageLoopAux fetch addEsi page fuel st).2.length ≤ fuel := by
  intro fuel
  induction fuel with
  | zero => intro page st; simp [pageLoopAux]
  | succ fuel ih =>
    intro page st
    rcases hf : fetch page with e | mails
    · simp [pageLoopAux, hf]
    · cases mails with
      | nil => simp [pageLoopAux, hf]
      | cons m rest =>
        rcases hp : processKillMails addEsi (m :: rest) st.seen st.aggregated with e | pr
        · simp [pageLoopAux, hf, hp]
        · obtain ⟨aggregated, seen⟩ := pr
          have := ih (page + 1) ⟨aggregated, seen⟩
          simp only [pageLoopAux, hf, hp, List.length_cons]
          omega

theorem pageLoopAux_stops_at_empty
    (fetch : Nat → Except String (List ZkillMail)) :
    ∀ (n fuel page : Nat) (st : AggState), n < fuel →
      (∀ p, page ≤ p → p < page + n → ∃ m ms, fetch p = .ok (m :: ms)) →
      fetch (page + n) = .ok [] →
      (pageLoopAux fetch AddEsiKillMail page fuel st).2.length = n + 1 := by
  intro n
  induction n with
  | zero =>
    intro fuel page st hfuel hpre hempty
    obtain ⟨fuel', rfl⟩ : ∃ m, fuel = m + 1 := ⟨fuel - 1, by omega⟩
    rw [Nat.add_zero] at hempty
    simp [pageLoopAux, hempty]
  | succ n ih =>
    intro fuel page st hfuel hpre hempty
    obtain ⟨fuel', rfl⟩ : ∃ m, fuel = m + 1 := ⟨fuel - 1, by omega⟩
    obtain ⟨m, ms, hf⟩ := hpre page (Nat.le_refl page) (by omega)
    obtain ⟨⟨aggregated, seen⟩, hp⟩ :=
      processKillMails_ok AddEsiKillMail (m :: ms) st.seen st.aggregated
    have hrec := ih fuel' (page + 1) ⟨aggregated, seen⟩ (by omega)
      (fun p hp1 hp2 => hpre p (by omega) (by omega))
      (by have hsh : page + 1 + n = page + (n + 1) := by omega
          rw [hsh]; exact hempty)
    simp only [pageLoopAux, hf, hp, List.length_cons]
    omega

/-- C3: for each (entity kind, entity id, direction) tuple the per-tuple page
loop of `GetKillMailDataForMonth` (`pageLoop`, invoked once per tuple) fetches
pages starting at 1 incrementing by 1, stops at the first page returning zero
records or at the 100-page ceiling, whichever comes first; with non-empty
pages 1..n and an empty page n+1 it makes exactly n+1 page-fetch calls (4 for
n = 3, never 5). -/
theorem pageLoop_pagination_termination
    (fetch : Nat → Except String (List ZkillMail)) (st : AggState) :
    (pageLoop fetch st).2 = List.range' 1 (pageLoop fetch st).2.length ∧
    (pageLoop fetch st).2.length ≤ maxPages ∧
    (∀ n, n + 1 ≤ maxPages →
      (∀ p, 1 ≤ p → p ≤ n → ∃ m ms, fetch p = .ok (m :: ms)) →
      fetch (n + 1) = .ok [] →
      (pageLoop fetch st).2.length = n + 1) := by
  refine ⟨pageLoopAux_pages_consecutive fetch AddEsiKillMail maxPages 1 st,
    pageLoopAux_length_le fetch AddEsiKillMail maxPages 1 st, ?_⟩
  intro n hn hpre hempty
  have h100 : maxPages = 100 := rfl
  apply pageLoopAux_stops_at_empty fetch n maxPages 1 st (by omega)
  · intro p hp1 hp2
    exact hpre p hp1 (by omega)
  · have hsh : 1 + n = n + 1 := by omega
    rw [hsh]; exact hempty

def c3FetchStub : Nat → Except String (List ZkillMail) :=
  fun page => if page ≤ 3 then
    .ok [⟨Int.ofNat page, ⟨0, "h", 0, 0, 0, 0, 0, false, false, false⟩⟩] else .ok []

/-- C3 witness: non-empty pages 1–3 and an empty page 4 give exactly the four
page-fetch calls [1, 2, 3, 4], never five. -/
theorem pageLoop_pagination_termination_witness :
    (pageLoop c3FetchStub ⟨[], []⟩).2.length = 4 ∧
    (pageLoop c3FetchStub ⟨[], []⟩).2 = [1, 2, 3, 4] := by
  have h := pageLoop_pagination_termination c3FetchStub ⟨[], []⟩
  have hlen : (pageLoop c3FetchStub ⟨[], []⟩).2.length = 4 := by
    apply h.2.2 3 (by decide)
    · intro p hp1 hp3
      refine ⟨⟨Int.ofNat p, ⟨0, "h", 0, 0, 0, 0, 0, false, false, false⟩⟩, [], ?_⟩
      show (if p ≤ 3 then _ else _) = _
      rw [if_pos hp3]
    · rfl
  refine ⟨hlen, ?_⟩
  have := h.1
  rw [hlen] at this
  simpa using this

/-- The dedup invariant of one aggregation run: the seen-identifier set holds
exactly the identifiers of the records appended so far, and no identifier
occurs twice among them. -/
def SeenInv (seen : List Int) (aggregated : List FlattenedKillMail) : Prop :=
  (∀ i, i ∈ seen ↔ i ∈ aggregated.map FlattenedKillMail.killMailID) ∧
  (aggregated.map FlattenedKillMail.killMailID).Nodup

theorem processKillMails_preserves_seenInv :
    ∀ (mails : List ZkillMail) (seen : List Int) (aggregated : List FlattenedKillMail) out,
      SeenInv seen aggregated →
      processKillMails AddEsiKillMail mails seen aggregated = .ok out →
      SeenInv out.2 out.1 := by
  intro mails
  induction mails with
  | nil =>
    intro seen aggregated out hinv hout
    injection hout with hout'
    rw [← hout']
    exact hinv
  | cons m rest ih =>
    intro seen aggregated out hinv hout
    by_cases hmem : m.killMailID ∈ seen
    · rw [processKillMails, if_pos hmem] at hout
      exact ih seen aggregated out hinv hout
    · rw [processKillMails, if_neg hmem] at hout
      simp only [AddEsiKillMail] at hout
      apply ih _ _ _ _ hout
      obtain ⟨hiff, hnd⟩ := hinv
      constructor
      · intro i
        simp only [List.mem_cons, List.map_append, List.mem_append, List.map_cons,
          List.map_nil, List.mem_singleton, hiff]
        constructor
        · rintro (h | h)
          · exact Or.inr (by simp [h])
          · exact Or.inl h
        · rintro (h | h)
          · exact Or.inr h
          · simp at h
            exact Or.inl h
      · have hperm : List.Perm
            ((aggregated.map FlattenedKillMail.killMailID) ++ [m.killMailID])
            (m.killMailID :: aggregated.map FlattenedKillMail.killMailID) :=
          List.perm_append_singleton _ _
        rw [List.map_append]
        apply hperm.nodup_iff.mpr
        refine List.Nodup.cons ?_ hnd
        intro hc
        exact hmem ((hiff m.killMailID).mpr hc)

theorem pageLoopAux_preserves_seenInv (fetch : Nat → Except String (List ZkillMail)) :
    ∀ (fuel page : Nat) (st : AggState),
      SeenInv st.seen st.aggregated →
      SeenInv (pageLoopAux fetch AddEsiKillMail page fuel st).1.seen
        (pageLoopAux fetch AddEsiKillMail page fuel st).1.aggregated := by
  intro fuel
  induction fuel with
  | zero => intro page st hinv; exact hinv
  | succ fuel ih =>
    intro page st hinv
    rcases hf : fetch page with e | mails
    · simpa [pageLoopAux, hf] using hinv
    · cases mails with
      | nil => simpa [pageLoopAux, hf] using hinv
      | cons m rest =>
        rcases hp : processKillMails AddEsiKillMail (m :: rest) st.seen st.aggregated
          with e | pr
        · simpa [pageLoopAux, hf, hp] using hinv
        · obtain ⟨aggregated, seen⟩ := pr
          have hinv' : SeenInv seen aggregated :=
            processKillMails_preserves_seenInv (m :: rest) st.seen st.aggregated
              (aggregated, seen) hinv hp
          have := ih (page + 1) ⟨aggregated, seen⟩ hinv'
          simpa [pageLoopAux, hf, hp] using this

theorem runTuple_preserves_seenInv (kf lf : Nat → Except String (List ZkillMail))
    (acc : AggState × Nat) (hinv : SeenInv acc.1.seen acc.1.aggregated) :
    SeenInv (runTuple kf lf acc).1.seen (runTuple kf lf acc).1.aggregated := by
  have h1 := pageLoopAux_preserves_seenInv kf maxPages 1 acc.1 hinv
  exact pageLoopAux_preserves_seenInv lf maxPages 1 (pageLoop kf acc.1).1 h1

theorem runGroup_preserves_seenInv
    (killsFetch lossFetch : String → Int → Nat → Except String (List ZkillMail))
    (etype : String) :
    ∀ (ids : List Int) (acc : AggState × Nat),
      SeenInv acc.1.seen acc.1.aggregated →
      SeenInv (runGroup killsFetch lossFetch etype acc ids).1.seen
        (runGroup killsFetch lossFetch etype acc ids).1.aggregated := by
  intro ids
  induction ids with
  | nil => intro acc hinv; exact hinv
  | cons entityID ids ih =>
    intro acc hinv
    have h1 := runTuple_preserves_seenInv (killsFetch etype entityID)
      (lossFetch etype entityID) acc hinv
    exact ih _ h1

theorem getKillMailDataForMonth_seenInv
    (killsFetch lossFetch : String → Int → Nat → Except String (List ZkillMail)) :
    ∀ (groups : List (String × List Int)) (acc : AggState × Nat),
      SeenInv acc.1.seen acc.1.aggregated →
      SeenInv (groups.foldl (fun acc g => runGroup killsFetch lossFetch g.1 acc g.2) acc).1.seen
        (groups.foldl (fun acc g => runGroup killsFetch lossFetch g.1 acc g.2) acc).1.aggregated := by
  intro groups
  induction groups with
  | nil => intro acc hinv; exact hinv
  | cons g groups ih =>
    intro acc hinv
    exact ih _ (runGroup_preserves_seenInv killsFetch lossFetch g.1 g.2 acc hinv)

/-- C4: within one `GetKillMailDataForMonth` run the accumulated result holds
at most one flattened record per distinct kill-mail identifier; the
seen-identifier set holds exactly the identifiers of the records successfully
appended so far; and a summary record whose identifier was already seen is
skipped without invoking the per-record detail fetch/merge step, whatever that
step is — hence dedup works across feeds of different entities. -/
theorem getKillMailDataForMonth_dedup :
    (∀ (killsFetch lossFetch : String → Int → Nat → Except String (List ZkillMail))
       (groups : List (String × List Int)) (l : List FlattenedKillMail),
       (GetKillMailDataForMonth killsFetch lossFetch groups).1 = .ok l →
       (l.map FlattenedKillMail.killMailID).Nodup) ∧
    (∀ (addEsi : ZkillMail → List FlattenedKillMail → Except String (List FlattenedKillMail))
       (m : ZkillMail) (rest : List ZkillMail) (seen : List Int)
       (aggregated : List FlattenedKillMail),
       m.killMailID ∈ seen →
       processKillMails addEsi (m :: rest) seen aggregated =
         processKillMails addEsi rest seen aggregated) ∧
    (∀ (mails : List ZkillMail) (seen : List Int) (aggregated : List FlattenedKillMail) out,
       SeenInv seen aggregated →
       processKillMails AddEsiKillMail mails seen aggregated = .ok out →
       SeenInv out.2 out.1) := by
  refine ⟨?_, ?_, processKillMails_preserves_seenInv⟩
  · intro killsFetch lossFetch groups l hok
    have hinv0 : SeenInv ([] : List Int) ([] : List FlattenedKillMail) := by
      constructor
      · intro i; simp
      · simp
    have hfin := getKillMailDataForMonth_seenInv killsFetch lossFetch groups
      (⟨[], []⟩, 0) hinv0
    have : l = (groups.foldl (fun acc g => runGroup killsFetch lossFetch g.1 acc g.2)
        (⟨[], []⟩, 0)).1.aggregated := by
      have := hok
      rw [GetKillMailDataForMonth] at this
      injection this with h'
      exact h'.symm
    rw [this]
    exact hfin.2
  · intro addEsi m rest seen aggregated hmem
    rw [processKillMails, if_pos hmem]

def zkbStub (h : String) : ZKB := ⟨0, h, 0, 0, 0, 0, 0, false, false, false⟩

def c4KillsStub : String → Int → Nat → Except String (List ZkillMail) :=
  fun _ _ page => if page = 1 then .ok [⟨111, zkbStub "hash111"⟩] else .ok []

def c4LossStub : String → Int → Nat → Except String (List ZkillMail) :=
  fun _ _ _ => .ok []

/-- C4 witness: identifier 111 appears in both a corporation's and a
character's kills feed within one run, and the final result carries exactly
one record with each identifier. -/
theorem getKillMailDataForMonth_dedup_witness :
    ∃ l, (GetKillMailDataForMonth c4KillsStub c4LossStub
        [("corporation", [1]), ("character", [2])]).1 = .ok l ∧
      (l.map FlattenedKillMail.killMailID).Nodup ∧
      l.map FlattenedKillMail.killMailID = [111] := by
  refine ⟨_, rfl, ?_, ?_⟩
  · exact getKillMailDataForMonth_dedup.1 c4KillsStub c4LossStub
      [("corporation", [1]), ("character", [2])] _ rfl
  · rfl

/-- C5: during one `GetKillMailDataForMonth` run, a failing per-record
fetch/merge step skips only that record — the remaining records of the page
keep being processed, and the page-processing step never aborts a page — and
the top-level call always returns the accumulated best-effort record set with
a nil error (so an error could only ever surface from a total failure, and in
fact never does). -/
theorem getKillMailDataForMonth_partial_failure_tolerance :
    (∀ (killsFetch lossFetch : String → Int → Nat → Except String (List ZkillMail))
       (groups : List (String × List Int)),
       ∃ l, (GetKillMailDataForMonth killsFetch lossFetch groups).1 = .ok l) ∧
    (∀ (addEsi : ZkillMail → List FlattenedKillMail → Except String (List FlattenedKillMail))
       (m : ZkillMail) (rest : List ZkillMail) (seen : List Int)
       (aggregated : List FlattenedKillMail) (e : String),
       addEsi m aggregated = .error e →
       processKillMails addEsi (m :: rest) seen aggregated =
         processKillMails addEsi rest seen aggregated) ∧
    (∀ (addEsi : ZkillMail → List FlattenedKillMail → Except String (List FlattenedKillMail))
       (mails : List ZkillMail) (seen : List Int) (aggregated : List FlattenedKillMail),
       ∃ out, processKillMails addEsi mails seen aggregated = .ok out) := by
  refine ⟨?_, ?_, processKillMails_ok⟩
  · intro killsFetch lossFetch groups
    exact ⟨_, rfl⟩
  · intro addEsi m rest seen aggregated e herr
    by_cases hmem : m.killMailID ∈ seen
    · rw [processKillMails, if_pos hmem]
    · rw [processKillMails, if_neg hmem, herr]

def c5AddEsiStub : ZkillMail → List FlattenedKillMail → Except String (List FlattenedKillMail) :=
  fun m aggregated =>
    if m.killMailID = 7 then .error "detail fetch failed" else AddEsiKillMail m aggregated

/-- C5 witness: with a per-record step failing on identifier 7, record 7 is
dropped while record 8 on the same page is still processed, and the top-level
run returns a nil error. -/
theorem getKillMailDataForMonth_partial_failure_tolerance_witness :
    (∃ l, (GetKillMailDataForMonth c4KillsStub c4LossStub [("alliance", [5])]).1 = .ok l) ∧
    processKillMails c5AddEsiStub [⟨7, zkbStub "h7"⟩, ⟨8, zkbStub "h8"⟩] [] [] =
      processKillMails c5AddEsiStub [⟨8, zkbStub "h8"⟩] [] [] ∧
    (∃ out, processKillMails c5AddEsiStub [⟨7, zkbStub "h7"⟩, ⟨8, zkbStub "h8"⟩] [] [] =
      .ok out ∧ out.1.map FlattenedKillMail.killMailID = [8]) := by
  refine ⟨getKillMailDataForMonth_partial_failure_tolerance.1 c4KillsStub c4LossStub _,
    getKillMailDataForMonth_partial_failure_tolerance.2.1 c5AddEsiStub
      ⟨7, zkbStub "h7"⟩ [⟨8, zkbStub "h8"⟩] [] [] "detail fetch failed" rfl, ?_⟩
  exact ⟨_, rfl, rfl⟩

/-! Helper development for the cache-key claims: the insertion sort used to
embed `sort.Strings` is a sorted permutation, sorted permutations are unique,
and association-list lookup is invariant under permutation when keys are
unique (the Go map guarantee). -/

instance strLeIsTotal : IsTotal String (fun a b => strLe a b = true) := ⟨strLe_total⟩

instance strLeIsTrans : IsTrans String (fun a b => strLe a b = true) :=
  ⟨fun _ _ _ => strLe_trans⟩

instance strLeIsAntisymm : IsAntisymm String (fun a b => strLe a b = true) :=
  ⟨fun _ _ => strLe_antisymm⟩

theorem insertKeyAsc_perm (k : String) :
    ∀ ys : List String, List.Perm (insertKeyAsc k ys) (k :: ys) := by
  intro ys
  induction ys with
  | nil => exact List.Perm.refl [k]
  | cons y ys ihy =>
    rw [insertKeyAsc]
    by_cases h : strLe k y = true
    · rw [if_pos h]
    · rw [if_neg h]
      exact (ihy.cons y).trans (List.Perm.swap k y ys)

theorem sortStringsAsc_perm (l : List String) : List.Perm (sortStringsAsc l) l := by
  induction l with
  | nil => exact List.Perm.refl []
  | cons x xs ih =>
    exact (insertKeyAsc_perm x (sortStringsAsc xs)).trans (ih.cons x)

theorem insertKeyAsc_sorted (k : String) (l : List String)
    (hl : List.Sorted (fun a b => strLe a b = true) l) :
    List.Sorted (fun a b => strLe a b = true) (insertKeyAsc k l) := by
  induction l with
  | nil => simp [insertKeyAsc]
  | cons x xs ih =>
    rw [insertKeyAsc]
    by_cases h : strLe k x = true
    · rw [if_pos h]
      refine List.sorted_cons.mpr ⟨?_, hl⟩
      intro b hb
      rcases List.mem_cons.mp hb with hb | hb
      · rw [hb]; exact h
      · exact strLe_trans h (List.rel_of_sorted_cons hl b hb)
    · rw [if_neg h]
      have hxk : strLe x k = true := (strLe_total k x).resolve_left h
      refine List.sorted_cons.mpr ⟨?_, ih (List.sorted_cons.mp hl).2⟩
      intro b hb
      have hbm : b ∈ k :: xs := (insertKeyAsc_perm k xs).mem_iff.mp hb
      rcases List.mem_cons.mp hbm with hb' | hb'
      · rw [hb']; exact hxk
      · exact List.rel_of_sorted_cons hl b hb'

theorem sortStringsAsc_sorted (l : List String) :
    List.Sorted (fun a b => strLe a b = true) (sortStringsAsc l) := by
  induction l with
  | nil => simp [sortStringsAsc]
  | cons x xs ih => exact insertKeyAsc_sorted x (sortStringsAsc xs) ih

theorem sortStringsAsc_eq_of_perm {l l' : List String} (h : List.Perm l l') :
    sortStringsAsc l = sortStringsAsc l' :=
  List.eq_of_perm_of_sorted
    (((sortStringsAsc_perm l).trans h).trans (sortStringsAsc_perm l').symm)
    (sortStringsAsc_sorted l) (sortStringsAsc_sorted l')

theorem lookup_perm_of_nodupKeys (k : String) :
    ∀ {l l' : List (String × String)}, List.Perm l l' →
    (l.map Prod.fst).Nodup → l.lookup k = l'.lookup k := by
  intro l l' h
  induction h with
  | nil => intro _; rfl
  | cons x h ih =>
    intro hnd
    obtain ⟨a, b⟩ := x
    simp only [List.map_cons, List.nodup_cons] at hnd
    simp only [List.lookup_cons]
    cases k == a
    · exact ih hnd.2
    · rfl
  | swap x y l =>
    intro hnd
    obtain ⟨a, b⟩ := x
    obtain ⟨c, d⟩ := y
    simp only [List.map_cons, List.nodup_cons, List.mem_cons] at hnd
    have hac : ¬ (c = a) := fun hca => hnd.1 (Or.inl hca)
    simp only [List.lookup_cons]
    rcases hkc : k == c <;> rcases hka : k == a
    · rfl
    · rfl
    · rfl
    · exact absurd ((eq_of_beq hkc).symm.trans (eq_of_beq hka)) hac
  | trans h1 h2 ih1 ih2 =>
    intro hnd
    have hnd2 := ((h1.map Prod.fst).nodup_iff).mp hnd
    exact (ih1 hnd).trans (ih2 hnd2)

theorem lookupParam_perm {ps qs : List (String × String)} (h : List.Perm ps qs)
    (hnd : (ps.map Prod.fst).Nodup) : lookupParam ps = lookupParam qs := by
  funext k
  rw [lookupParam, lookupParam, lookup_perm_of_nodupKeys k h hnd]

theorem lookup_isSome_of_key_mem :
    ∀ {l : List (String × String)} {k : String}, k ∈ l.map Prod.fst →
      (l.lookup k).isSome = true := by
  intro l
  induction l with
  | nil => intro k h; simp at h
  | cons x xs ih =>
    intro k h
    obtain ⟨a, b⟩ := x
    simp only [List.map_cons, List.mem_cons] at h
    simp only [List.lookup_cons]
    rcases hka : k == a
    · rcases h with h | h
      · exact absurd (beq_iff_eq.mpr h) (by simp [hka])
      · exact ih h
    · rfl

theorem buildCacheKey_perm_invariant (endpoint : String) {ps qs : List (String × String)}
    (hnd : (ps.map Prod.fst).Nodup) (h : List.Perm ps qs) :
    buildCacheKey endpoint ps = buildCacheKey endpoint qs := by
  rw [buildCacheKey, buildCacheKey,
    sortStringsAsc_eq_of_perm (h.map Prod.fst), lookupParam_perm h hnd]

theorem urlQueryEncode_perm_invariant {ps qs : List (String × String)}
    (hnd : (ps.map Prod.fst).Nodup) (h : List.Perm ps qs) :
    urlQueryEncode ps = urlQueryEncode qs := by
  rw [urlQueryEncode, urlQueryEncode,
    sortStringsAsc_eq_of_perm (h.map Prod.fst), lookupParam_perm h hnd]

/-- C6: the esi cache key is `esi:<endpoint>:` followed by each `&key=value`
pair in ascending key order (the sorted key list is a permutation of the
parameter keys), so two calls with the same endpoint and the same parameter
set, supplied in any map/iteration order, produce identical cache keys. -/
theorem buildCacheKey_sorted_and_stable :
    (∀ (endpoint : String) (ps : List (String × String)),
       ∃ ks, List.Perm ks (ps.map Prod.fst) ∧
         List.Sorted (fun a b => strLe a b = true) ks ∧
         buildCacheKey endpoint ps =
           "esi:" ++ endpoint ++ ":" ++
             ks.foldl (fun acc k => acc ++ "&" ++ k ++ "=" ++ lookupParam ps k) "") ∧
    (∀ (endpoint : String) (ps qs : List (String × String)),
       (ps.map Prod.fst).Nodup → List.Perm ps qs →
       buildCacheKey endpoint ps = buildCacheKey endpoint qs) := by
  constructor
  · intro endpoint ps
    exact ⟨sortStringsAsc (ps.map Prod.fst), sortStringsAsc_perm _,
      sortStringsAsc_sorted _, rfl⟩
  · intro endpoint ps qs hnd h
    exact buildCacheKey_perm_invariant endpoint hnd h

/-- C6 witness: a two-parameter map in both insertion orders yields the same
key, and the key is the sorted ampersand-prefixed rendering. -/
theorem buildCacheKey_sorted_and_stable_witness :
    buildCacheKey "/universe/structures/" [("page", "2"), ("datasource", "tranquility")] =
      buildCacheKey "/universe/structures/" [("datasource", "tranquility"), ("page", "2")] ∧
    buildCacheKey "/universe/structures/" [("page", "2"), ("datasource", "tranquility")] =
      "esi:/universe/structures/:&datasource=tranquility&page=2" := by
  constructor
  · exact buildCacheKey_sorted_and_stable.2 "/universe/structures/"
      [("page", "2"), ("datasource", "tranquility")]
      [("datasource", "tranquility"), ("page", "2")]
      (by decide)
      (List.Perm.swap ("datasource", "tranquility") ("page", "2") [])
  · rfl

/-- C10: `GetBytes` defaults a missing "datasource" parameter to
"tranquility": for every parameter map without that key, the derived cache key
and the derived request query are identical to those of the call whose map
additionally holds datasource=tranquility (in any iteration order), so both
call forms read and populate the same cache entry; the nil map behaves as the
singleton datasource map. -/
theorem getBytes_datasource_default :
    (∀ (endpoint : String) (ps qs : List (String × String)),
       ps.lookup "datasource" = none →
       ((ps ++ [("datasource", "tranquility")]).map Prod.fst).Nodup →
       List.Perm qs (ps ++ [("datasource", "tranquility")]) →
       getBytesCacheKey endpoint (some ps) = getBytesCacheKey endpoint (some qs) ∧
       getBytesRequestQuery (some ps) = getBytesRequestQuery (some qs)) ∧
    (∀ endpoint : String,
       getBytesCacheKey endpoint none =
         getBytesCacheKey endpoint (some [("datasource", "tranquility")])) := by
  constructor
  · intro endpoint ps qs hds hnd hperm
    have hn1 : normalizeParams (some ps) = ps ++ [("datasource", "tranquility")] := by
      rw [normalizeParams]
      simp only [Option.getD_some]
      rw [hds]
      rfl
    have hkey : "datasource" ∈ qs.map Prod.fst := by
      have : ("datasource", "tranquility") ∈ qs :=
        hperm.mem_iff.mpr (List.mem_append.mpr (Or.inr (List.mem_singleton.mpr rfl)))
      exact List.mem_map.mpr ⟨_, this, rfl⟩
    have hn2 : normalizeParams (some qs) = qs := by
      rw [normalizeParams]
      simp only [Option.getD_some]
      rw [lookup_isSome_of_key_mem hkey]
      rfl
    constructor
    · rw [getBytesCacheKey, getBytesCacheKey, hn1, hn2]
      exact buildCacheKey_perm_invariant endpoint hnd hperm.symm
    · rw [getBytesRequestQuery, getBytesRequestQuery, hn1, hn2]
      exact urlQueryEncode_perm_invariant hnd hperm.symm
  · intro endpoint
    rfl

/-- C10 witness: `page=2` with no datasource key versus the same map plus
datasource=tranquility supplied first — identical cache key and request
query. -/
theorem getBytes_datasource_default_witness :
    getBytesCacheKey "/characters/1/assets/" (some [("page", "2")]) =
      getBytesCacheKey "/characters/1/assets/"
        (some [("datasource", "tranquility"), ("page", "2")]) ∧
    getBytesRequestQuery (some [("page", "2")]) =
      getBytesRequestQuery (some [("datasource", "tranquility"), ("page", "2")]) := by
  exact getBytes_datasource_default.1 "/characters/1/assets/" [("page", "2")]
    [("datasource", "tranquility"), ("page", "2")]
    rfl (by decide)
    (List.Perm.swap ("page", "2") ("datasource", "tranquility") [])

/-- Spec-side rendering of "month as two digits" for calendar months. -/
def monthTwoDigits (m : Int) : String :=
  if m ≤ 9 then "0" ++ toString m else toString m

/-- C7: the paginated-feed cache key is exactly
`zkill:<apiType>:<entityType>ID:<entityID>:<year>:<month as two digits>:<page>`,
the single-record key is exactly `zkill:single:killID:<id>` (written with the
default TTL); and a page-cache miss followed by a successful fetch writes the
page under its key with a 24-hour TTL when (year, month) is the current
wall-clock month and the 770-hour default TTL otherwise. -/
theorem zkillCacheKey_and_ttl_policy :
    (∀ (apiType entityType : String) (entityID year page m : Int),
       1 ≤ m → m ≤ 12 →
       BuildCacheKey apiType entityType entityID year m page =
         "zkill:" ++ apiType ++ ":" ++ entityType ++ "ID:" ++ toString entityID ++ ":" ++
           toString year ++ ":" ++ monthTwoDigits m ++ ":" ++ toString page) ∧
    (∀ (cacheGet : String → Option (List ZkillMailFeedResponse))
       (doGetSingle : String → Except String (List ZkillMailFeedResponse))
       (baseURL : String) (killID : Int) (k : ZkillMailFeedResponse)
       (rest : List ZkillMailFeedResponse),
       cacheGet ("zkill:single:killID:" ++ toString killID) = none →
       doGetSingle (baseURL ++ "/api/killID/" ++ toString killID ++ "/") = .ok (k :: rest) →
       GetSingleKillmail cacheGet doGetSingle baseURL killID =
         (.ok k, some ⟨"zkill:single:killID:" ++ toString killID, k :: rest,
           zkillCacheExpirationHours⟩)) ∧
    (∀ (cacheGet : String → Option (List ZkillMail))
       (doGetKillMails : String → Except String (List ZkillMail))
       (baseURL apiType entityType : String)
       (entityID page year month currentYear currentMonth : Int)
       (kills : List ZkillMail),
       cacheGet (BuildCacheKey apiType entityType entityID year month page) = none →
       doGetKillMails (zkillRequestURL baseURL apiType entityType entityID year month page) =
         .ok kills →
       fetchPageData cacheGet doGetKillMails baseURL apiType entityType entityID page
           year month currentYear currentMonth =
         (.ok kills, some ⟨BuildCacheKey apiType entityType entityID year month page, kills,
           if year = currentYear ∧ month = currentMonth then 24
           else zkillCacheExpirationHours⟩)) := by
  refine ⟨?_, ?_, ?_⟩
  · intro apiType entityType entityID year page m h1 h12
    have hf : fmt02 m = monthTwoDigits m := by
      interval_cases m <;> decide
    rw [BuildCacheKey, hf]
  · intro cacheGet doGetSingle baseURL killID k rest hcg hdg
    simp only [GetSingleKillmail]
    rw [hcg, hdg]
  · intro cacheGet doGetKillMails baseURL apiType entityType entityID page year month
      currentYear currentMonth kills hcg hdg
    have hiff : (if year = currentYear ∧ month = currentMonth then (24 : Nat)
        else zkillCacheExpirationHours) =
        (if (year == currentYear && month == currentMonth) = true then (24 : Nat)
        else zkillCacheExpirationHours) := by
      by_cases h1 : year = currentYear <;> by_cases h2 : month = currentMonth <;>
        simp [h1, h2]
    rw [hiff]
    simp only [fetchPageData]
    rw [hcg, hdg]

def c7CacheMiss {A : Type} : String → Option A := fun _ => none

/-- C7 witness: concrete keys for (corporation 9000000, kills, 2023-07, page
1) and killID 555, and a page write carrying the 770-hour TTL for a
non-current month and the 24-hour TTL for the current month. -/
theorem zkillCacheKey_and_ttl_policy_witness :
    BuildCacheKey "kills" "corporation" 9000000 2023 7 1 =
      "zkill:kills:corporationID:9000000:2023:07:1" ∧
    (GetSingleKillmail c7CacheMiss (fun _ => .ok [⟨555, 30000142, ⟨0, 0, 0, [], ⟨0, 0, 0⟩, 0⟩,
        [], zkbStub "h555"⟩]) "https://zkillboard.com" 555).2 =
      some ⟨"zkill:single:killID:555", [⟨555, 30000142, ⟨0, 0, 0, [], ⟨0, 0, 0⟩, 0⟩,
        [], zkbStub "h555"⟩], 770⟩ ∧
    (fetchPageData c7CacheMiss (fun _ => .ok []) "https://zkillboard.com" "kills"
        "corporation" 9000000 1 2023 7 2025 10).2 =
      some ⟨BuildCacheKey "kills" "corporation" 9000000 2023 7 1, [], 770⟩ ∧
    (fetchPageData c7CacheMiss (fun _ => .ok []) "https://zkillboard.com" "kills"
        "corporation" 9000000 1 2025 10 2025 10).2 =
      some ⟨BuildCacheKey "kills" "corporation" 9000000 2025 10 1, [], 24⟩ := by
  refine ⟨?_, ?_, ?_, ?_⟩
  · have h := zkillCacheKey_and_ttl_policy.1 "kills" "corporation" 9000000 2023 1 7
      (by decide) (by decide)
    rw [h]; decide
  · have h := zkillCacheKey_and_ttl_policy.2.1 c7CacheMiss
      (fun _ => .ok [⟨555, 30000142, ⟨0, 0, 0, [], ⟨0, 0, 0⟩, 0⟩, [], zkbStub "h555"⟩])
      "https://zkillboard.com" 555
      ⟨555, 30000142, ⟨0, 0, 0, [], ⟨0, 0, 0⟩, 0⟩, [], zkbStub "h555"⟩ [] rfl rfl
    rw [h]
    rfl
  · have h := zkillCacheKey_and_ttl_policy.2.2 c7CacheMiss (fun _ => .ok [])
      "https://zkillboard.com" "kills" "corporation" 9000000 1 2023 7 2025 10 [] rfl rfl
    rw [h]
    have : ¬ ((2023 : Int) = 2025 ∧ (7 : Int) = 10) := by decide
    rw [if_neg this]
    rfl
  · have h := zkillCacheKey_and_ttl_policy.2.2 c7CacheMiss (fun _ => .ok [])
      "https://zkillboard.com" "kills" "corporation" 9000000 1 2025 10 2025 10 [] rfl rfl
    rw [h]
    rw [if_pos ⟨rfl, rfl⟩]

/-- An attempt outcome that leaves the single-kill loop's accumulator empty,
so the loop continues to the next attempt. -/
def attemptNoData (a : SingleAttempt) : Prop :=
  a.doFail = true ∨ a.status ≠ 200 ∨ a.decoded = none ∨ a.decoded = some []

theorem doGetSingleAux_cancelled (done : Nat → Bool) (att : Nat → SingleAttempt) :
    ∀ (n attempt fuel : Nat), n < fuel →
      (∀ j, attempt ≤ j → j < attempt + n → done j = false ∧ attemptNoData (att j)) →
      done (attempt + n) = true →
      doGetSingleAux done att attempt fuel [] = (.error .ctxCanceled, n) := by
  intro n
  induction n with
  | zero =>
    intro attempt fuel hf hpre hdone
    obtain ⟨fuel', rfl⟩ : ∃ m, fuel = m + 1 := ⟨fuel - 1, by omega⟩
    rw [Nat.add_zero] at hdone
    simp [doGetSingleAux, hdone]
  | succ n ih =>
    intro attempt fuel hf hpre hdone
    obtain ⟨fuel', rfl⟩ : ∃ m, fuel = m + 1 := ⟨fuel - 1, by omega⟩
    obtain ⟨hdf, hnd⟩ := hpre attempt (Nat.le_refl _) (by omega)
    have hih := ih (attempt + 1) fuel' (by omega)
      (fun j h1 h2 => hpre j (by omega) (by omega))
      (by have hsh : attempt + 1 + n = attempt + (n + 1) := by omega
          rw [hsh]; exact hdone)
    rcases hA : att attempt with ⟨df, stat, dec⟩
    rw [hA] at hnd
    by_cases hdf2 : df = true
    · simp [doGetSingleAux, hdf, hA, hdf2, hih]
    · have hdf3 : df = false := by simpa using hdf2
      rcases hnd with h | hstat | hdec | hdec
      · exact absurd h hdf2
      · have hs : (stat == 200) = false := by simpa using hstat
        simp [doGetSingleAux, hdf, hA, hdf3, hs, hih]
      · by_cases hs : (stat == 200) = true <;>
          simp [doGetSingleAux, hdf, hA, hdf3, hs, hdec, hih]
      · by_cases hs : (stat == 200) = true <;>
          simp [doGetSingleAux, hdf, hA, hdf3, hs, hdec, hih]

/-- C8 counterexample: the generic retry loop `RetryWithExponentialBackoff`
performs no pre-attempt cancellation check. With an operation modelling
`DoRequest` under an already-cancelled context (every call fails immediately
with the context's error, a non-HTTPError), the loop still invokes the
operation — one network attempt is started — where the claim requires zero. -/
theorem retryLoop_no_cancellation_check_counterexample :
    (RetryWithExponentialBackoff
      (fun _ => (.error (.other "context canceled") : Except OpError String))
      (fun _ => 0)).calls = 1 ∧
    ¬ (RetryWithExponentialBackoff
      (fun _ => (.error (.other "context canceled") : Except OpError String))
      (fun _ => 0)).calls = 0 := by
  have h1 : (RetryWithExponentialBackoff
      (fun _ => (.error (.other "context canceled") : Except OpError String))
      (fun _ => 0)).calls = 1 := rfl
  exact ⟨h1, by rw [h1]; decide⟩

/-- C8 (amended): the single-record retry loop `doGetSingleKillMails` polls
the cancellation signal before every attempt and, when the signal is already
triggered at an attempt, returns the context's cancellation error with no
further network call; the generic `RetryWithExponentialBackoff` loop has no
such pre-attempt check — it invokes the operation, and an already-cancelled
context surfaces only as the operation's own non-retryable error, which ends
the loop immediately after that one invocation. -/
theorem cancellation_checks_per_retry_loop :
    (∀ (done : Nat → Bool) (att : Nat → SingleAttempt) (k : Nat),
       1 ≤ k → k ≤ singleMaxAttempts →
       (∀ j, 1 ≤ j → j < k → done j = false ∧ attemptNoData (att j)) →
       done k = true →
       doGetSingleKillMails done att = (.error .ctxCanceled, k - 1)) ∧
    (∀ (op : Nat → Except OpError String) (jitter : Nat → Nat) (msg : String),
       op 0 = .error (.other msg) →
       (RetryWithExponentialBackoff op jitter).result = .error (.other msg) ∧
       (RetryWithExponentialBackoff op jitter).calls = 1) := by
  constructor
  · intro done att k h1 h5 hpre hdone
    rw [doGetSingleKillMails]
    have hk : k = 1 + (k - 1) := by omega
    have := doGetSingleAux_cancelled done att (k - 1) 1 singleMaxAttempts
      (by have h5' : k ≤ 5 := h5
          rw [singleMaxAttempts]; omega)
      (fun j hj1 hj2 => hpre j hj1 (by omega))
      (by rw [← hk]; exact hdone)
    exact this
  · intro op jitter msg hop
    have hr : RetryWithExponentialBackoff op jitter =
        retryAux op jitter 0 baseDelay maxRetries := rfl
    rw [hr, maxRetries]
    constructor <;> simp [retryAux, hop, isRetryableErr]

def c8DoneStub : Nat → Bool := fun j => j == 2

def c8AttStub : Nat → SingleAttempt := fun _ => ⟨true, 0, none⟩

/-- C8 witness for the amended claim: with the signal triggering before
attempt 2 and attempt 1 failing its HTTP call, the single-kill loop returns
the cancellation error after exactly one network call; and the generic loop
invoked on an operation that reports a cancelled context returns that error
after exactly one invocation. -/
theorem cancellation_checks_per_retry_loop_witness :
    doGetSingleKillMails c8DoneStub c8AttStub = (.error .ctxCanceled, 1) ∧
    (RetryWithExponentialBackoff
      (fun _ => (.error (.other "context deadline exceeded") : Except OpError String))
      (fun _ => 0)).calls = 1 := by
  constructor
  · exact cancellation_checks_per_retry_loop.1 c8DoneStub c8AttStub 2
      (by decide) (by decide)
      (by intro j hj1 hj2
          have hj : j = 1 := by omega
          subst hj
          exact ⟨rfl, Or.inl rfl⟩)
      rfl
  · exact (cancellation_checks_per_retry_loop.2
      (fun _ => (.error (.other "context deadline exceeded") : Except OpError String))
      (fun _ => 0) "context deadline exceeded" rfl).2
